import Mathlib
/-!
Verification of the RAG retrieval core of the Prompt-Library repository
(`functions/src/rag/*.py`, `functions/src/llm/token_counter.py`).

Python text values are embedded as `List Char`, Python ints as `Nat`/`Int`,
and Python floats as `ℚ` (exact arithmetic; the float literals 0.7, 0.3,
1.2, 1.1 of the source are embedded as the rationals they denote).
External libraries (tiktoken encodings, the langchain splitters, the
OpenAI client, FAISS, Firestore) are not part of the repository; every
call into them is modelled as an explicit function parameter ("oracle"),
while all logic of the repository's own functions is translated
line by line.
-/

/-! ## Shared text helpers (Python `str` operations used by the modules) -/

/-- Whitespace test matching Python's `str.strip`/`str.split` default
(space, newline, tab, carriage return, form feed, vertical tab). -/
def isPyWS (c : Char) : Bool :=
  c = ' ' || c = '\n' || c = '\t' || c = '\x0d' || c = '\x0c' || c = '\x0b'

/-- Embedding of Python `str.strip()`: drop leading and trailing whitespace. -/
def stripChars (l : List Char) : List Char :=
  ((l.dropWhile isPyWS).reverse.dropWhile isPyWS).reverse

/-- Embedding of Python `str.split()` (no argument): split on runs of
whitespace, emitting no empty words. -/
def splitWS (l : List Char) : List (List Char) :=
  match l with
  | [] => []
  | c :: cs =>
    if isPyWS c then splitWS cs
    else (c :: cs.takeWhile (fun d => !isPyWS d)) ::
      splitWS (cs.dropWhile (fun d => !isPyWS d))
termination_by l.length
decreasing_by
  · simp
  · have := (List.dropWhile_sublist (l := cs) (fun d => !isPyWS d)).length_le
    simp; omega

/-! ## Token counter (`functions/src/llm/token_counter.py`, class `TokenCounter`)

The tiktoken encoding object is external; it is modelled by a pair of
oracles `enc` (its `encode`) and `dec` (its `decode`).  The model
multiplier (`MODEL_MULTIPLIERS`, looked up by `_get_model_multiplier`)
is a rational: 6/5 for the `meta-llama` family (the default model),
11/10 for `google/gemma`, 1 for `microsoft/phi` and the default. -/

namespace TokenCounter

/-- Embedding of `TokenCounter.count_tokens`: `0` for empty text, otherwise
`int(len(encode(text)) * multiplier)` (the value is nonnegative, so Python's
`int()` truncation toward zero is the floor). -/
def count_tokens (enc : List Char → List Nat) (mult : ℚ) (text : List Char) : Nat :=
  if text = [] then 0
  else (Rat.floor (((enc text).length : ℚ) * mult)).toNat

/-- The token slice kept by `truncate_to_token_limit`: Python's
`tokens[:max_tokens]`, or `tokens[-max_tokens:]` when `preserve_end` is set
(which keeps the whole list when `max_tokens = 0`, since `[-0:]` is `[0:]`). -/
def keptTokens (tokens : List Nat) (max_tokens : Nat) (preserve_end : Bool) : List Nat :=
  if preserve_end then
    if max_tokens = 0 then tokens else tokens.drop (tokens.length - max_tokens)
  else tokens.take max_tokens

/-- Embedding of `TokenCounter.truncate_to_token_limit`. -/
def truncate_to_token_limit (enc : List Char → List Nat) (dec : List Nat → List Char)
    (mult : ℚ) (text : List Char) (max_tokens : Nat)
    (preserve_end : Bool := false) : List Char :=
  if text = [] then text
  else if count_tokens enc mult text ≤ max_tokens then text
  else dec (keptTokens (enc text) max_tokens preserve_end)

/-- Concrete stand-in encoding for counterexamples: one token per character. -/
def charEnc (l : List Char) : List Nat := l.map Char.toNat

/-- Concrete stand-in decoding, inverse of `charEnc` on character codes. -/
def charDec (l : List Nat) : List Char := l.map Char.ofNat

end TokenCounter

/-! ## Vector store (`functions/src/rag/vector_store.py`, class `FAISSVectorStore`)

The FAISS index object is external; its observable interface here is its
element count `ntotal` (insertion appends and increments it; FAISS raw
search hits are an oracle input to `search`).  Cloud-storage persistence
always writes the current in-memory state, so `initialize_index` on a
previously saved store reloads exactly the in-memory state and on a fresh
store builds `create_new_index`; state-changing operations are therefore
modelled as pure state transformers. -/

namespace VectorStore

/-- A chunk as passed to `add_chunks`: the dict fields the function reads. -/
structure Chunk where
  id : String
  document_id : String
  content : List Char
  embedding : Option (List ℚ)
  metadata : List (String × String)
  deriving DecidableEq

/-- One entry of `metadata['document_chunks'][document_id]`. -/
structure VEntry where
  vector_id : Nat
  chunk_id : String
  content_preview : List Char
  metadata : List (String × String)
  deriving DecidableEq

/-- The preview computed at `add_chunks` line 159:
`content[:200] + '...' if len(content) > 200 else content`. -/
def content_preview (c : List Char) : List Char :=
  if 200 < c.length then c.take 200 ++ ("...".data) else c

/-- The in-memory state: FAISS element count, the `document_chunks` map
(a Python dict, embedded as an insertion-ordered association list with
unique keys), and `metadata['total_vectors']`. -/
structure State where
  ntotal : Nat
  document_chunks : List (String × List VEntry)
  total_vectors : Nat
  deriving DecidableEq

/-- Embedding of `_create_new_index`: empty FAISS index, empty map, zero count. -/
def create_new_index : State := ⟨0, [], 0⟩

/-- Entries recorded under key `d` (Python `metadata['document_chunks'][d]`,
empty when the key is absent; keys are unique, so the first match is the
dict lookup). -/
def docEntries : List (String × List VEntry) → String → List VEntry
  | [], _ => []
  | (k, es) :: rest, d => if k = d then es else docEntries rest d

/-- The entry produced for one chunk in the `add_chunks` metadata loop. -/
def mkEntry (vid : Nat) (c : Chunk) : VEntry :=
  ⟨vid, c.id, content_preview c.content, c.metadata⟩

/-- Dict update of the `add_chunks` loop body: create the key with an empty
list if absent, then append the entry to its list. -/
def appendEntry (m : List (String × List VEntry)) (d : String) (e : VEntry) :
    List (String × List VEntry) :=
  match m with
  | [] => [(d, [e])]
  | (k, es) :: rest =>
    if k = d then (k, es ++ [e]) :: rest else (k, es) :: appendEntry rest d e

/-- The `for i, chunk_meta in enumerate(chunk_metadata)` loop of `add_chunks`:
entry `i` gets `vector_id = start_id + i`. -/
def addEntries (m : List (String × List VEntry)) (vid : Nat) :
    List Chunk → List (String × List VEntry)
  | [] => m
  | c :: cs => addEntries (appendEntry m c.document_id (mkEntry vid c)) (vid + 1) cs

/-- Embedding of `add_chunks`: chunks without an embedding are skipped; with
no remaining embeddings the function returns `False` and leaves the state
unchanged; otherwise the vectors are appended to the FAISS index
(`start_id = index.ntotal` before the add), the metadata map is extended and
`total_vectors` is set to the new element count. -/
def add_chunks (chunks : List Chunk) (st : State) : Bool × State :=
  let embedded := chunks.filter (fun c => c.embedding.isSome)
  if embedded = [] then (false, st)
  else
    (true,
      { ntotal := st.ntotal + embedded.length,
        document_chunks := addEntries st.document_chunks st.ntotal embedded,
        total_vectors := st.ntotal + embedded.length })

/-- Embedding of `remove_document`: returns `True` without change when the
document is not present; otherwise deletes the document's key from the
metadata map only — the FAISS index and `total_vectors` are untouched. -/
def remove_document (d : String) (st : State) : Bool × State :=
  if (st.document_chunks.find? (fun p => p.1 == d)).isNone then (true, st)
  else (true, { st with document_chunks := st.document_chunks.filter (fun p => !(p.1 == d)) })

/-- Embedding of `_get_chunk_by_vector_id`: scan documents in map order,
returning the document id together with the first entry whose `vector_id`
matches. -/
def findEntry : List (String × List VEntry) → Nat → Option (String × VEntry)
  | [], _ => none
  | (d, es) :: rest, vid =>
    match es.find? (fun e => e.vector_id == vid) with
    | some e => some (d, e)
    | none => findEntry rest vid

/-- One row of `FAISSVectorStore.search`'s result list. -/
structure SearchResult where
  chunk_id : String
  document_id : String
  content_preview : List Char
  metadata : List (String × String)
  similarity_score : ℚ
  vector_id : Nat
  deriving DecidableEq

/-- Embedding of `search`.  `hits` is the oracle for the raw FAISS output
`zip(scores[0], indices[0])`; a hit with index `-1` or score below the
threshold is skipped, and a hit whose index does not resolve in the metadata
map is silently dropped. -/
def search (st : State) (hits : List (ℚ × Int)) (score_threshold : ℚ) :
    List SearchResult :=
  if st.ntotal = 0 then []
  else hits.filterMap (fun h =>
    if h.2 = -1 || h.1 < score_threshold then none
    else
      match findEntry st.document_chunks h.2.toNat with
      | some (d, e) => some ⟨e.chunk_id, d, e.content_preview, e.metadata, h.1, h.2.toNat⟩
      | none => none)

/-- State-changing operations on a store (searches leave the state
unchanged; `initialize_index` reloads the persisted state, which equals the
in-memory state after every operation, so it is the identity once the store
exists). -/
inductive Op where
  | initIndex : Op
  | add : List Chunk → Op
  | remove : String → Op

/-- Effect of one operation on the store state. -/
def step (st : State) : Op → State
  | Op.initIndex => st
  | Op.add cs => (add_chunks cs st).2
  | Op.remove d => (remove_document d st).2

/-- A store reached by running a sequence of operations from a fresh index. -/
def run (ops : List Op) : State := ops.foldl step create_new_index

/-- All entries stored in the metadata map. -/
def allEntries (m : List (String × List VEntry)) : List VEntry :=
  m.flatMap (fun p => p.2)

/-- The metadata/index consistency invariant of claim C5: `total_vectors`
equals the FAISS element count and every entry's `vector_id` indexes a
stored vector. -/
def Inv (st : State) : Prop :=
  st.total_vectors = st.ntotal ∧
  ∀ e ∈ allEntries st.document_chunks, e.vector_id < st.ntotal

/-- The entries that the `add_chunks` metadata loop records for document `d`
when the embedded chunks are inserted starting at vector id `start`:
the chunks in input order, chunk at offset `i` receiving id `start + i`. -/
def entriesFor (start : Nat) : List Chunk → String → List VEntry
  | [], _ => []
  | c :: cs, d =>
    (if c.document_id = d then [mkEntry start c] else []) ++ entriesFor (start + 1) cs d

end VectorStore

/-- Counterexample chunk for C4: content of 201 identical characters. -/
def c4chunk : VectorStore.Chunk :=
  { id := "c1", document_id := "d1", content := List.replicate 201 'a',
    embedding := some [1], metadata := [] }

/-- Witness chunk for the C4 amended theorem: short content. -/
def c4wchunk : VectorStore.Chunk :=
  { id := "c2", document_id := "d1", content := List.replicate 5 'a',
    embedding := some [1], metadata := [] }

/-! ## Context retriever (`functions/src/rag/context_retriever.py`,
class `ContextRetriever`)

The collaborators of `retrieve_context` — the query-embedding call, the
vector-store initialization, the vector-store search and the Firestore
chunk lookups — are external calls; they are modelled as an
environment of oracles. -/

namespace ContextRetriever

/-- Embedding of the dataclass `RetrievalConfig` with its defaults. -/
structure RetrievalConfig where
  top_k : Nat := 5
  similarity_threshold : ℚ := 7/10
  max_context_length : Nat := 4000
  include_metadata : Bool := true
  rerank_results : Bool := true
  deriving DecidableEq

/-- The metadata fields `_format_context` reads from a chunk's metadata dict. -/
structure ChunkMeta where
  page_number : Option Int := none
  section_title : Option (List Char) := none
  deriving DecidableEq

/-- One search result dict as returned by `FAISSVectorStore.search`. -/
structure SearchRes where
  chunk_id : String
  document_id : String
  content_preview : List Char
  metadata : ChunkMeta
  similarity_score : ℚ
  deriving DecidableEq

/-- A Firestore chunk document as read by `_enrich_chunks_with_content`
(`content` may be missing, in which case the preview is the fallback). -/
structure StoreDoc where
  content : Option (List Char)
  metadata : ChunkMeta
  deriving DecidableEq

/-- An enriched chunk dict: the search-result fields plus the full content
and metadata.  `rerank_score` is the key written by `_rerank_chunks`
(initially 0; the sort only ever reads it after it has been assigned). -/
structure EChunk where
  chunk_id : String
  document_id : String
  content_preview : List Char
  metadata : ChunkMeta
  similarity_score : ℚ
  content : List Char
  full_metadata : ChunkMeta
  rerank_score : ℚ
  deriving DecidableEq

/-- Embedding of `_enrich_chunks_with_content`: look each result up in the
store; a found document contributes its content (falling back to the
preview when the `content` field is missing) and metadata; a missing
document falls back to the preview and the result's own metadata. -/
def enrich_chunks (store : String → String → Option StoreDoc)
    (rs : List SearchRes) : List EChunk :=
  rs.map (fun r =>
    match store r.document_id r.chunk_id with
    | some docd =>
      ⟨r.chunk_id, r.document_id, r.content_preview, r.metadata, r.similarity_score,
        docd.content.getD r.content_preview, docd.metadata, 0⟩
    | none =>
      ⟨r.chunk_id, r.document_id, r.content_preview, r.metadata, r.similarity_score,
        r.content_preview, r.metadata, 0⟩)

/-- The lower-cased word set of a text, as built by `_rerank_chunks`
(`set(text.lower().split())`). -/
def wordSet (s : List Char) : Finset (List Char) :=
  (splitWS (s.map Char.toLower)).toFinset

/-- The score assignment of the `_rerank_chunks` loop:
`rerank_score = similarity_score * 0.7 + (keyword_overlap / max(len(query_words), 1)) * 0.3`. -/
def assignScore (query : List Char) (c : EChunk) : EChunk :=
  let query_words := wordSet query
  let content_words := wordSet c.content
  let keyword_overlap := (query_words ∩ content_words).card
  { c with rerank_score :=
      c.similarity_score * (7/10) +
        ((keyword_overlap : ℚ) / (max query_words.card 1 : ℚ)) * (3/10) }

/-- Embedding of `_rerank_chunks`: assign every chunk its rerank score, then
`chunks.sort(key=lambda x: x['rerank_score'], reverse=True)` — Python's
stable merge sort in descending key order, which is `List.mergeSort` with
`le a b := b.rerank_score ≤ a.rerank_score`. -/
def rerank_chunks (query : List Char) (chunks : List EChunk) : List EChunk :=
  (chunks.map (assignScore query)).mergeSort
    (fun a b => decide (b.rerank_score ≤ a.rerank_score))

/-- Decimal digits of a Python integer (page numbers in source headers). -/
def intChars (n : Int) : List Char :=
  if n < 0 then '-' :: Nat.toDigits 10 n.natAbs else Nat.toDigits 10 n.toNat

/-- The `source_info` list built by `_format_context` when metadata is
included: a page entry when `page_number` is truthy (present and nonzero)
and a section entry when `section_title` is truthy (present and nonempty). -/
def source_info (m : ChunkMeta) : List (List Char) :=
  (match m.page_number with
   | some n => if n = 0 then [] else [("Page ".data) ++ intChars n]
   | none => []) ++
  (match m.section_title with
   | some t => if t = [] then [] else [("Section: ".data) ++ t]
   | none => [])

/-- One formatted `context_part`: with metadata enabled,
`"[Source {i+1}{source_str}]\n{content}\n"`, otherwise `"{content}\n\n"`. -/
def mkPart (cfg : RetrievalConfig) (i : Nat) (c : EChunk) (content : List Char) :
    List Char :=
  if cfg.include_metadata then
    let si := source_info c.full_metadata
    let source_str :=
      if si = [] then []
      else (" (".data) ++ List.intercalate (", ".data) si ++ (")".data)
    ("[Source ".data) ++ Nat.toDigits 10 (i + 1) ++ source_str ++ ("]".data) ++
      ('\n' :: content) ++ ('\n' :: [])
  else content ++ ('\n' :: '\n' :: [])

/-- The accumulation loop of `_format_context` (source lines 168-198), with
running chunk index `i` and `current_length`.  Each emitted element pairs
the formatted `context_part` with the (possibly truncated) `content` local
variable it embeds; the second component is recorded so that the content
budget can be stated, and is not used by `format_context` itself. -/
def formatLoop (cfg : RetrievalConfig) :
    Nat → Nat → List EChunk → List (List Char × List Char)
  | _, _, [] => []
  | i, cur, c :: rest =>
    if cur + c.content.length > cfg.max_context_length then
      if cfg.max_context_length - cur > 100 then
        (mkPart cfg i c (c.content.take (cfg.max_context_length - cur - 3) ++ ("...".data)),
            c.content.take (cfg.max_context_length - cur - 3) ++ ("...".data)) ::
          formatLoop cfg (i + 1)
            (cur + (mkPart cfg i c
              (c.content.take (cfg.max_context_length - cur - 3) ++ ("...".data))).length)
            rest
      else []
    else
      (mkPart cfg i c c.content, c.content) ::
        formatLoop cfg (i + 1) (cur + (mkPart cfg i c c.content).length) rest

/-- Embedding of `_format_context`: empty input yields `""`, otherwise the
parts are joined with `"\n"` and stripped. -/
def format_context (cfg : RetrievalConfig) (chunks : List EChunk) : List Char :=
  if chunks = [] then []
  else stripChars (List.intercalate ('\n' :: []) ((formatLoop cfg 0 0 chunks).map Prod.fst))

/-- The `metadata` dict of a retrieval response. -/
structure RespMetadata where
  query : List Char
  total_chunks_found : Nat
  chunks_used : Nat
  context_length : Nat
  similarity_scores : List ℚ
  document_sources : List String
  deriving DecidableEq

/-- A retrieval response dict. -/
structure Response where
  context : List Char
  chunks : List EChunk
  metadata : RespMetadata
  deriving DecidableEq

/-- Embedding of `_empty_context_response`. -/
def empty_context_response : Response :=
  ⟨[], [], ⟨[], 0, 0, 0, [], []⟩⟩

/-- The oracle environment of one `retrieve_context` call: the result of
`generate_query_embedding`, of `initialize_index`, of the vector-store
`search` (for this query, `top_k` and threshold), and the Firestore lookup
keyed by `(document_id, chunk_id)`. -/
structure Env where
  query_embedding : Option (List ℚ)
  init_ok : Bool
  search_results : List SearchRes
  store : String → String → Option StoreDoc

/-- Embedding of `retrieve_context`.  The document-id filter applies only
when the argument list is truthy (present and nonempty); the pre-filter
`if not search_results` check precedes the filter; the metadata counters
are computed from the post-filter results, and `document_sources` is the
deduplicated document-id list (Python's `list(set(...))`, whose order is
implementation-defined; `List.dedup` fixes one order). -/
def retrieve_context (env : Env) (cfg : RetrievalConfig) (query : List Char)
    (document_ids : Option (List String)) : Response :=
  match env.query_embedding with
  | none => empty_context_response
  | some _ =>
    if !env.init_ok then empty_context_response
    else if env.search_results = [] then empty_context_response
    else
      let search_results :=
        match document_ids with
        | some (d :: ds) => env.search_results.filter (fun r => (d :: ds).contains r.document_id)
        | _ => env.search_results
      let enriched := enrich_chunks env.store search_results
      let enriched := if cfg.rerank_results then rerank_chunks query enriched else enriched
      let fc := format_context cfg enriched
      ⟨fc, enriched,
        ⟨query, search_results.length, enriched.length, fc.length,
          enriched.map (fun c => c.similarity_score),
          (enriched.map (fun c => c.document_id)).dedup⟩⟩

end ContextRetriever

/-- Witness chunk for the C9 rerank theorem. -/
def c9wchunk : ContextRetriever.EChunk :=
  ⟨"c1", "d1", [], ⟨none, none⟩, 0, [], ⟨none, none⟩, 0⟩

/-- Counterexample chunk and configuration for C1. -/
def c1chunk : ContextRetriever.EChunk :=
  ⟨"c1", "d1", [], ⟨none, none⟩, 1, ("0123456789".data), ⟨none, none⟩, 0⟩

/-- Retrieval configuration with a context budget of 10 characters. -/
def c1cfg : ContextRetriever.RetrievalConfig := { max_context_length := 10 }

/-- Counterexample search results for C6: two documents. -/
def c6r1 : ContextRetriever.SearchRes := ⟨"c1", "d1", [], ⟨none, none⟩, 1⟩

/-- Second counterexample search result for C6. -/
def c6r2 : ContextRetriever.SearchRes := ⟨"c2", "d2", [], ⟨none, none⟩, 1⟩

/-- Counterexample configuration for C6 (reranking off; any configuration
serves, the claim quantifies over all of them). -/
def c6cfg : ContextRetriever.RetrievalConfig := { rerank_results := false }

/-- Counterexample environment for C6: query embedding available, index
loaded, two search hits, no Firestore documents. -/
def c6env1 : ContextRetriever.Env :=
  ⟨some [1], true, [c6r1, c6r2], fun _ _ => none⟩

/-- Degraded-path environment for C6: query embedding generation failed. -/
def c6env2 : ContextRetriever.Env :=
  ⟨none, true, [c6r1, c6r2], fun _ _ => none⟩

/-! ## Text chunker (`functions/src/rag/text_chunker.py`, class `TextChunker`)

The langchain `RecursiveCharacterTextSplitter`, the tiktoken encoding
behind `_count_tokens`, and the `re`-based helpers (`_preprocess_text`,
`_get_page_number`, `_get_section_title`) delegate to external libraries;
they enter the model as oracle fields of `ChunkParams`.  The
claims settled here (C7, C8) concern only the emission loop of
`chunk_text` (source lines 93-135), which is translated line by line. -/

namespace Chunker

/-- Embedding of the dataclass `ChunkingConfig` fields read by the loop. -/
structure ChunkingConfig where
  chunk_size : Nat := 1000
  chunk_overlap : Nat := 200
  min_chunk_size : Nat := 100
  max_chunk_size : Nat := 2000
  deriving DecidableEq

/-- The metadata dict recorded for an emitted chunk. -/
structure RChunkMeta where
  start_index : Int
  end_index : Int
  token_count : Nat
  character_count : Nat
  page_number : Option Int
  section_title : Option (List Char)
  chunk_index : Nat
  deriving DecidableEq

/-- An emitted chunk dict. -/
structure RChunk where
  id : List Char
  content : List Char
  document_id : List Char
  metadata : RChunkMeta
  deriving DecidableEq

/-- The inputs of one `chunk_text` call: the configuration, the raw text,
and the oracle values of the external collaborators — the cleaned text
(`_preprocess_text`), the splitter output (`splitter.split_text`), the
token counter (`_count_tokens`) and the structure lookups
(`_get_page_number` / `_get_section_title`). -/
structure ChunkParams where
  cfg : ChunkingConfig
  rawText : List Char
  cleaned : List Char
  splitOutput : List (List Char)
  countTokens : List Char → Nat
  pageOf : List Char → Option Int
  sectionOf : List Char → Option (List Char)
  docId : List Char

/-- Embedding of Python `haystack.find(needle, start)` (with Python's
negative-start adjustment); `none` models the `-1` result. -/
def pyFindFrom (hay needle : List Char) (start : Int) : Option Nat :=
  (List.range (hay.length + 1)).find? (fun j =>
    decide ((if start < 0 then (max 0 ((hay.length : Int) + start)).toNat
             else start.toNat) ≤ j) &&
    decide ((hay.drop j).take needle.length = needle))

/-- The emission loop of `chunk_text`: `i` is the `enumerate` index and
`cur` the `current_position`.  A chunk whose stripped text is shorter than
`min_chunk_size` (in characters) is skipped without advancing the
position; an emitted chunk records id `"{document_id}_chunk_{i}"`, the
stripped content, its offsets, the token count and `chunk_index = i`, and
the position advances to `end_index - chunk_overlap`. -/
def chunkLoop (P : ChunkParams) : Nat → Int → List (List Char) → List RChunk
  | _, _, [] => []
  | i, cur, t :: ts =>
    if (stripChars t).length < P.cfg.min_chunk_size then
      chunkLoop P (i + 1) cur ts
    else
      (⟨P.docId ++ ("_chunk_".data) ++ Nat.toDigits 10 i,
        stripChars t,
        P.docId,
        ⟨(match pyFindFrom P.cleaned t cur with
          | some j => (j : Int)
          | none => cur),
         (match pyFindFrom P.cleaned t cur with
          | some j => (j : Int)
          | none => cur) + t.length,
         P.countTokens t,
         t.length,
         P.pageOf t,
         P.sectionOf t,
         i⟩⟩ : RChunk) ::
      chunkLoop P (i + 1)
        ((match pyFindFrom P.cleaned t cur with
          | some j => (j : Int)
          | none => cur) + t.length - P.cfg.chunk_overlap) ts

/-- Embedding of `chunk_text`: empty or whitespace-only raw text yields no
chunks; otherwise the splitter output is processed by the emission loop. -/
def chunk_text (P : ChunkParams) : List RChunk :=
  if stripChars P.rawText = [] then [] else chunkLoop P 0 0 P.splitOutput

end Chunker

/-- Counterexample parameters for C7: one 4-character splitter chunk, a
token counter reporting 1 token, and `min_chunk_size = 3`. -/
def c7params : Chunker.ChunkParams :=
  { cfg := { min_chunk_size := 3 },
    rawText := ("abcd".data), cleaned := ("abcd".data),
    splitOutput := [("abcd".data)],
    countTokens := fun _ => 1,
    pageOf := fun _ => none, sectionOf := fun _ => none,
    docId := ("doc".data) }

/-- The chunk emitted by `chunk_text c7params`. -/
def c7wchunk : Chunker.RChunk :=
  ⟨("doc_chunk_0".data), ("abcd".data), ("doc".data), ⟨0, 4, 1, 4, none, none, 0⟩⟩

/-- Counterexample parameters for C8: three splitter chunks of which the
middle one is discarded by the minimum-size filter. -/
def c8params : Chunker.ChunkParams :=
  { cfg := { min_chunk_size := 3 },
    rawText := ("aaa x bbb".data), cleaned := ("aaa x bbb".data),
    splitOutput := [("aaa".data), ("x".data), ("bbb".data)],
    countTokens := fun _ => 1,
    pageOf := fun _ => none, sectionOf := fun _ => none,
    docId := ("doc".data) }

/-- The first chunk emitted by `chunk_text c8params`. -/
def c8wchunk : Chunker.RChunk :=
  ⟨("doc_chunk_0".data), ("aaa".data), ("doc".data), ⟨0, 3, 1, 3, none, none, 0⟩⟩

/-! ## Embedding generator (`functions/src/rag/embedding_generator.py`,
class `EmbeddingGenerator`)

The OpenAI client behind `_generate_embeddings_with_retry` and the
tiktoken encoding are external.  The retry helper either returns one real
embedding per input text or — on retry exhaustion or an unexpected error —
`[None] * len(texts)`, and never raises; it is therefore modelled as an
oracle `provider` mapping the batch ordinal to `some` embeddings or
`none`. -/

namespace EmbeddingGenerator

/-- A chunk dict as read and written by `generate_embeddings`. -/
structure EChunk where
  id : String
  content : List Char
  embedding : Option (List ℚ)
  embedding_error : Option (List Char)
  embedding_model : Option String
  embedding_dimensions : Option Nat
  truncated : Bool
  original_token_count : Option Nat
  deriving DecidableEq

/-- Embedding of `_validate_chunks`: drop chunks with empty or
whitespace-only content; truncate a chunk whose stripped content exceeds
the model's token limit, tagging it. -/
def validate_chunks (enc : List Char → List Nat) (dec : List Nat → List Char)
    (maxTokens : Nat) : List EChunk → List EChunk
  | [] => []
  | c :: cs =>
    if c.content = [] then validate_chunks enc dec maxTokens cs
    else if stripChars c.content = [] then validate_chunks enc dec maxTokens cs
    else if (enc (stripChars c.content)).length > maxTokens then
      { c with content := dec ((enc (stripChars c.content)).take maxTokens),
               truncated := true,
               original_token_count := some (enc (stripChars c.content)).length } ::
        validate_chunks enc dec maxTokens cs
    else c :: validate_chunks enc dec maxTokens cs

/-- The per-chunk success update of `_process_batch`. -/
def setEmbedding (model : String) (c : EChunk) (e : List ℚ) : EChunk :=
  { c with embedding := some e, embedding_model := some model,
           embedding_dimensions := some e.length }

/-- The per-chunk failure update of `_process_batch`
(`embedding = None` plus the error annotation). -/
def markNoEmbedding (c : EChunk) : EChunk :=
  { c with embedding := none,
           embedding_error := some ("Failed to generate embedding".data) }

/-- Embedding of `_process_batch` given the retry helper's result: on
success, `zip(batch, embeddings)` attaches one embedding per chunk (a chunk
beyond the zip is returned unmodified); on failure every chunk of the batch
is marked embedding-absent. -/
def process_batch (model : String) (result : Option (List (List ℚ)))
    (batch : List EChunk) : List EChunk :=
  match result with
  | some embs => List.zipWith (setEmbedding model) batch embs ++ batch.drop embs.length
  | none => batch.map markNoEmbedding

/-- The batching loop of `generate_embeddings`
(`for i in range(0, len(valid_chunks), batch_size)`), with `b` the batch
ordinal: each slice of `batch_size` chunks is processed and the results are
concatenated in order. -/
def process_batches (model : String) (provider : Nat → Option (List (List ℚ)))
    (bs : Nat) : Nat → List EChunk → List EChunk
  | _, [] => []
  | b, c :: cs =>
    process_batch model (provider b) (c :: cs.take (bs - 1)) ++
      process_batches model provider bs (b + 1) (cs.drop (bs - 1))
termination_by _ l => l.length
decreasing_by
  have := (List.drop_sublist (bs - 1) cs).length_le
  simp
  omega

/-- Embedding of `generate_embeddings`: empty input and all-invalid input
return `[]`; otherwise the validated chunks are processed batch by batch —
a failing batch never aborts the call. -/
def generate_embeddings (model : String) (provider : Nat → Option (List (List ℚ)))
    (enc : List Char → List Nat) (dec : List Nat → List Char)
    (maxTokens bs : Nat) (chunks : List EChunk) : List EChunk :=
  if chunks = [] then []
  else if validate_chunks enc dec maxTokens chunks = [] then []
  else process_batches model provider bs 0 (validate_chunks enc dec maxTokens chunks)

/-- The per-position effect of the batching loop on chunk `c` at offset `k`
of a batch whose retry result is `r`: marked on batch failure, embedded on
success, untouched if the provider returned too few embeddings. -/
def transform (model : String) (r : Option (List (List ℚ))) (k : Nat)
    (c : EChunk) : EChunk :=
  match r with
  | some embs =>
    match embs[k]? with
    | some e => setEmbedding model c e
    | none => c
  | none => markNoEmbedding c

end EmbeddingGenerator

/-- Counterexample chunk for C2 with ordinary content. -/
def c2chunkA : EmbeddingGenerator.EChunk :=
  ⟨"a", ('x' :: []), none, none, none, none, false, none⟩

/-- Counterexample chunk for C2 whose content is a single blank. -/
def c2chunkWS : EmbeddingGenerator.EChunk :=
  ⟨"b", (' ' :: []), none, none, none, none, false, none⟩

/-- Second ordinary counterexample chunk for C2. -/
def c2chunkB : EmbeddingGenerator.EChunk :=
  ⟨"c", ('y' :: []), none, none, none, none, false, none⟩

/-- Witness chunk for the C5 theorem. -/
def c5wchunk : VectorStore.Chunk :=
  ⟨"c5c", "d5", ('h' :: []), some [1], []⟩

/-- Witness store for the C10 theorem: two documents, one vector each. -/
def c10st : VectorStore.State :=
  ⟨2, [("d1", [⟨0, "c1", [], []⟩]), ("d2", [⟨1, "c2", [], []⟩])], 2⟩

set_option maxRecDepth 8000

theorem stripChars_nil : stripChars [] = [] := rfl

/-- The length of a stripped string never exceeds the original length. -/
theorem length_stripChars_le (l : List Char) : (stripChars l).length ≤ l.length := by
  unfold stripChars
  calc ((l.dropWhile isPyWS).reverse.dropWhile isPyWS).reverse.length
      = ((l.dropWhile isPyWS).reverse.dropWhile isPyWS).length := by
        rw [List.length_reverse]
    _ ≤ (l.dropWhile isPyWS).reverse.length :=
        (List.dropWhile_sublist _).length_le
    _ = (l.dropWhile isPyWS).length := by rw [List.length_reverse]
    _ ≤ l.length := (List.dropWhile_sublist _).length_le

/-- C3, claim as stated (instantiated): with the multiplier 6/5 of the
default `meta-llama` model family and a one-token-per-character encoding,
the text `"aaaaaaaaaa"` (10 tokens) truncated to the limit 5 still counts
`⌊5 * 6/5⌋ = 6 > 5` tokens, so
`count_tokens (truncate_to_token_limit text n) ≤ n` fails. -/
theorem c3_counterexample :
    ¬ (TokenCounter.count_tokens TokenCounter.charEnc (6/5)
        (TokenCounter.truncate_to_token_limit TokenCounter.charEnc TokenCounter.charDec
          (6/5) (List.replicate 10 'a') 5) ≤ 5) := by
  have e10 : TokenCounter.charEnc (List.replicate 10 'a') = List.replicate 10 97 := by
    decide
  have e5' : TokenCounter.charEnc (List.replicate 5 'a') = List.replicate 5 97 := by
    decide
  have c10 : TokenCounter.count_tokens TokenCounter.charEnc (6/5)
      (List.replicate 10 'a') = 12 := by
    unfold TokenCounter.count_tokens
    rw [if_neg (by decide), e10]
    rw [show ((List.replicate 10 (97:Nat)).length : ℚ) = 10 by simp]
    rw [show ((10:ℚ) * (6/5)) = 12 by norm_num]
    simp [Rat.floor]
  have c5 : TokenCounter.count_tokens TokenCounter.charEnc (6/5)
      (List.replicate 5 'a') = 6 := by
    unfold TokenCounter.count_tokens
    rw [if_neg (by decide), e5']
    rw [show ((List.replicate 5 (97:Nat)).length : ℚ) = 5 by simp]
    rw [show ((5:ℚ) * (6/5)) = 6 by norm_num]
    simp [Rat.floor]
  have etr : TokenCounter.truncate_to_token_limit TokenCounter.charEnc TokenCounter.charDec
      (6/5) (List.replicate 10 'a') 5 = List.replicate 5 'a' := by
    unfold TokenCounter.truncate_to_token_limit
    rw [if_neg (by decide), if_neg (by rw [c10]; decide)]
    rw [e10]
    unfold TokenCounter.keptTokens
    simp only [Bool.false_eq_true, if_false]
    decide
  rw [etr, c5]
  decide

/-- C3, amended: for model configurations whose multiplier is 1 (e.g.
`microsoft/phi` models, or any model outside the listed families), and for
any encoding pair such that re-encoding a decoded token list yields at most
as many tokens, truncation to a positive limit `n` yields text whose token
count is at most `n`. -/
theorem c3_truncate_le_limit (enc : List Char → List Nat) (dec : List Nat → List Char)
    (text : List Char) (n : Nat) (preserve_end : Bool)
    (hrt : ∀ ts : List Nat, (enc (dec ts)).length ≤ ts.length) (hn : 0 < n) :
    TokenCounter.count_tokens enc 1
      (TokenCounter.truncate_to_token_limit enc dec 1 text n preserve_end) ≤ n := by
  have hfloor : ∀ k : Nat, (Rat.floor ((k : ℚ) * 1)).toNat = k := by
    intro k
    rw [mul_one]
    simp [Rat.floor]
  have hcount : ∀ t : List Char, TokenCounter.count_tokens enc 1 t ≤ (enc t).length := by
    intro t
    unfold TokenCounter.count_tokens
    split
    · exact Nat.zero_le _
    · exact le_of_eq (hfloor _)
  have hklen : (TokenCounter.keptTokens (enc text) n preserve_end).length ≤ n := by
    unfold TokenCounter.keptTokens
    split
    · split
      · omega
      · rw [List.length_drop]
        omega
    · exact List.length_take_le n (enc text)
  unfold TokenCounter.truncate_to_token_limit
  split
  · simp_all [TokenCounter.count_tokens]
  · split
    · assumption
    · exact le_trans (le_trans (hcount _) (hrt _)) hklen

/-- Witness discharging the hypotheses of `c3_truncate_le_limit` at a concrete
input: the character encoding, the text `"abc"` and the limit 1. -/
theorem c3_truncate_le_limit_witness :
    TokenCounter.count_tokens TokenCounter.charEnc 1
      (TokenCounter.truncate_to_token_limit TokenCounter.charEnc TokenCounter.charDec
        1 ('a' :: 'b' :: 'c' :: []) 1 false) ≤ 1 := by
  apply c3_truncate_le_limit
  · intro ts
    simp [TokenCounter.charEnc, TokenCounter.charDec]
  · omega

namespace VectorStore

theorem allEntries_nil : allEntries [] = [] := rfl

theorem allEntries_cons (k : String) (es : List VEntry) (m : List (String × List VEntry)) :
    allEntries ((k, es) :: m) = es ++ allEntries m := by
  simp [allEntries]

/-- Lookup after a dict append: entries for `d` gain `e` exactly when the
entry was appended under `d`. -/
theorem docEntries_appendEntry (m : List (String × List VEntry)) (d' d : String) (e : VEntry) :
    docEntries (appendEntry m d' e) d =
      docEntries m d ++ (if d' = d then [e] else []) := by
  induction m with
  | nil =>
    by_cases h : d' = d <;> simp [appendEntry, docEntries, h]
  | cons p rest ih =>
    obtain ⟨k, es⟩ := p
    by_cases hk : k = d'
    · subst hk
      by_cases hd : k = d
      · subst hd
        simp [appendEntry, docEntries]
      · simp [appendEntry, docEntries, hd]
    · rw [appendEntry, if_neg hk]
      by_cases hd : k = d
      · subst hd
        have hd' : ¬ d' = k := fun h => hk h.symm
        simp [docEntries, hd']
      · simp [docEntries, hd, ih]

/-- Lookup after the whole metadata loop of `add_chunks`: the entries for
each document are extended, in input order, by the loop's entries with
consecutive vector ids starting at `v`. -/
theorem docEntries_addEntries (cs : List Chunk) (m : List (String × List VEntry))
    (v : Nat) (d : String) :
    docEntries (addEntries m v cs) d = docEntries m d ++ entriesFor v cs d := by
  induction cs generalizing m v with
  | nil => simp [addEntries, entriesFor]
  | cons c cs ih =>
    rw [addEntries, ih, docEntries_appendEntry, entriesFor, List.append_assoc]

/-- Membership in all entries after a dict append. -/
theorem mem_allEntries_appendEntry (m : List (String × List VEntry)) (d : String)
    (e x : VEntry) :
    x ∈ allEntries (appendEntry m d e) ↔ x ∈ allEntries m ∨ x = e := by
  induction m with
  | nil => simp [appendEntry, allEntries]
  | cons p rest ih =>
    obtain ⟨k, es⟩ := p
    by_cases hk : k = d
    · subst hk
      rw [appendEntry, if_pos rfl, allEntries_cons, allEntries_cons]
      simp only [List.mem_append, List.mem_singleton]
      tauto
    · rw [appendEntry, if_neg hk, allEntries_cons, allEntries_cons]
      simp only [List.mem_append, ih]
      tauto

/-- Vector ids of entries created by the metadata loop lie in
`[v, v + number of chunks)`. -/
theorem mem_allEntries_addEntries (cs : List Chunk) (m : List (String × List VEntry))
    (v : Nat) (x : VEntry) (h : x ∈ allEntries (addEntries m v cs)) :
    x ∈ allEntries m ∨ (v ≤ x.vector_id ∧ x.vector_id < v + cs.length) := by
  induction cs generalizing m v with
  | nil => exact Or.inl h
  | cons c cs ih =>
    rw [addEntries] at h
    rcases ih _ _ h with h' | h'
    · rcases (mem_allEntries_appendEntry _ _ _ _).1 h' with h'' | h''
      · exact Or.inl h''
      · subst h''
        right
        simp only [mkEntry, List.length_cons]
        omega
    · right
      simp only [List.length_cons]
      omega

/-- Entries survive key removal only if they were present before. -/
theorem mem_allEntries_filter (m : List (String × List VEntry))
    (p : String × List VEntry → Bool) (x : VEntry)
    (h : x ∈ allEntries (m.filter p)) : x ∈ allEntries m := by
  simp only [allEntries, List.mem_flatMap] at h ⊢
  obtain ⟨q, hq, hx⟩ := h
  exact ⟨q, List.mem_of_mem_filter hq, hx⟩

/-- The fresh index satisfies the consistency invariant. -/
theorem inv_create : Inv create_new_index := by
  refine ⟨rfl, ?_⟩
  intro e he
  simp [allEntries, create_new_index] at he

/-- Every operation preserves the consistency invariant. -/
theorem inv_step (st : State) (op : Op) (h : Inv st) : Inv (step st op) := by
  obtain ⟨h1, h2⟩ := h
  cases op with
  | initIndex => exact ⟨h1, h2⟩
  | add cs =>
    show Inv (add_chunks cs st).2
    by_cases hemb : cs.filter (fun c => c.embedding.isSome) = []
    · simp only [add_chunks, hemb, if_pos rfl]
      exact ⟨h1, h2⟩
    · simp only [add_chunks, if_neg hemb]
      refine ⟨rfl, ?_⟩
      intro e he
      rcases mem_allEntries_addEntries _ _ _ _ he with h' | h'
      · have := h2 e h'
        dsimp only
        omega
      · dsimp only
        omega
  | remove d =>
    show Inv (remove_document d st).2
    rw [remove_document]
    split
    · exact ⟨h1, h2⟩
    · exact ⟨h1, fun e he => h2 e (mem_allEntries_filter _ _ _ he)⟩

/-- The invariant holds along any run. -/
theorem inv_foldl (ops : List Op) (st : State) (h : Inv st) :
    Inv (ops.foldl step st) := by
  induction ops generalizing st with
  | nil => exact h
  | cons op ops ih => exact ih _ (inv_step st op h)

/-- A successful metadata scan returns a document id that is a key of the map. -/
theorem findEntry_key_mem (m : List (String × List VEntry)) (v : Nat)
    (d' : String) (e : VEntry) (h : findEntry m v = some (d', e)) :
    ∃ es, (d', es) ∈ m := by
  induction m with
  | nil => simp [findEntry] at h
  | cons p rest ih =>
    obtain ⟨k, es⟩ := p
    revert h
    rw [findEntry]
    cases hes : es.find? (fun x => x.vector_id == v) with
    | some e' =>
      intro h
      simp only [Option.some.injEq, Prod.mk.injEq] at h
      exact ⟨es, h.1 ▸ List.mem_cons_self _ _⟩
    | none =>
      intro h
      obtain ⟨es', hes'⟩ := ih h
      exact ⟨es', List.mem_cons_of_mem _ hes'⟩

/-- Every search result's document id is a key of the metadata map. -/
theorem search_key_mem (st : State) (hits : List (ℚ × Int)) (thr : ℚ)
    (r : SearchResult) (hr : r ∈ search st hits thr) :
    ∃ es, (r.document_id, es) ∈ st.document_chunks := by
  rw [search] at hr
  split at hr
  · exact absurd hr (List.not_mem_nil r)
  · rw [List.mem_filterMap] at hr
    obtain ⟨a, _, hfa⟩ := hr
    split at hfa
    · exact absurd hfa (by simp)
    · revert hfa
      cases hfe : findEntry st.document_chunks a.2.toNat with
      | none => intro hfa; simp at hfa
      | some p =>
        obtain ⟨d', e⟩ := p
        intro hfa
        simp only [Option.some.injEq] at hfa
        subst hfa
        exact findEntry_key_mem _ _ _ _ hfe

end VectorStore

/-- C5: starting from a fresh index, after every sequence of
initialize/add/remove operations `metadata['total_vectors']` equals the
FAISS element count and every stored entry's `vector_id` indexes a stored
vector (`vector_id < ntotal`); and `add_chunks` appends, for each document,
the batch's embedded chunks in input order with
`vector_id = previous_total + offset_in_batch` (see `entriesFor`). -/
theorem c5_insertion_and_invariant :
    (∀ ops : List VectorStore.Op, VectorStore.Inv (VectorStore.run ops)) ∧
    (∀ (st : VectorStore.State) (chunks : List VectorStore.Chunk) (d : String),
      VectorStore.docEntries (VectorStore.add_chunks chunks st).2.document_chunks d =
        VectorStore.docEntries st.document_chunks d ++
          VectorStore.entriesFor st.ntotal
            (chunks.filter (fun c => c.embedding.isSome)) d) := by
  constructor
  · intro ops
    exact VectorStore.inv_foldl ops _ VectorStore.inv_create
  · intro st chunks d
    by_cases hemb : chunks.filter (fun c => c.embedding.isSome) = []
    · simp [VectorStore.add_chunks, hemb, VectorStore.entriesFor]
    · simp only [VectorStore.add_chunks, if_neg hemb]
      exact VectorStore.docEntries_addEntries _ _ _ _

/-- C10: after `remove_document d` (which always reports success), no search
on the resulting state returns a result for document `d` — a FAISS hit whose
vector id no longer resolves in the metadata map is silently dropped — while
the removed document's vectors remain in the index: `ntotal` and
`metadata['total_vectors']` are unchanged. -/
theorem c10_remove_document_search :
    ∀ (st : VectorStore.State) (d : String),
      (VectorStore.remove_document d st).1 = true ∧
      (∀ (hits : List (ℚ × Int)) (thr : ℚ) (r : VectorStore.SearchResult),
        r ∈ VectorStore.search (VectorStore.remove_document d st).2 hits thr →
          r.document_id ≠ d) ∧
      (VectorStore.remove_document d st).2.ntotal = st.ntotal ∧
      (VectorStore.remove_document d st).2.total_vectors = st.total_vectors := by
  intro st d
  refine ⟨?_, ?_, ?_, ?_⟩
  · rw [VectorStore.remove_document]
    split <;> rfl
  · intro hits thr r hr heq
    by_cases hc : (st.document_chunks.find? (fun p => p.1 == d)).isNone
    · rw [VectorStore.remove_document, if_pos hc] at hr
      obtain ⟨es, hes⟩ := VectorStore.search_key_mem _ _ _ _ hr
      have hnone : st.document_chunks.find? (fun p => p.1 == d) = none :=
        Option.isNone_iff_eq_none.mp hc
      rw [List.find?_eq_none] at hnone
      have := hnone _ hes
      simp [heq] at this
    · rw [VectorStore.remove_document, if_neg hc] at hr
      obtain ⟨es, hes⟩ := VectorStore.search_key_mem _ _ _ _ hr
      have := List.of_mem_filter hes
      simp [heq] at this
  · rw [VectorStore.remove_document]
    split <;> rfl
  · rw [VectorStore.remove_document]
    split <;> rfl

namespace VectorStore

/-- Every entry produced by the metadata loop is the entry of one of the
loop's chunks, with a vector id offset by its position. -/
theorem mem_entriesFor (cs : List Chunk) (v : Nat) (d : String) (x : VEntry)
    (h : x ∈ entriesFor v cs d) :
    ∃ c ∈ cs, c.document_id = d ∧ ∃ i, x = mkEntry (v + i) c := by
  induction cs generalizing v with
  | nil => simp [entriesFor] at h
  | cons c cs ih =>
    rw [entriesFor, List.mem_append] at h
    rcases h with h | h
    · by_cases hd : c.document_id = d
      · rw [if_pos hd, List.mem_singleton] at h
        exact ⟨c, List.mem_cons_self _ _, hd, 0, by simpa using h⟩
      · rw [if_neg hd] at h
        exact absurd h (List.not_mem_nil x)
    · obtain ⟨c', hc', hd', i, hx⟩ := ih (v + 1) h
      refine ⟨c', List.mem_cons_of_mem _ hc', hd', i + 1, ?_⟩
      rw [hx]
      congr 1
      omega

end VectorStore

/-- C4, claim as stated (instantiated): adding a single chunk whose content
has 201 characters produces an entry whose `content_preview` is the first
200 characters followed by `'...'` — 203 characters, neither a prefix of the
content nor within the 200-character bound. -/
theorem c4_counterexample :
    ¬ (∀ e ∈ VectorStore.docEntries
          (VectorStore.add_chunks [c4chunk] VectorStore.create_new_index).2.document_chunks
          ("d1"),
        c4chunk.content.take e.content_preview.length = e.content_preview ∧
        e.content_preview.length ≤ 200) := by
  decide

/-- C4, amended: every entry created by `add_chunks` carries
`content_preview = content_preview(content)` of some chunk of the batch,
where the preview equals the content itself when it has at most 200
characters (hence is a prefix of bounded length), and otherwise is the first
200 characters with `'...'` appended — 203 characters, of which only the
first 200 are a prefix of the content. -/
theorem c4_content_preview_amended :
    (∀ (st : VectorStore.State) (chunks : List VectorStore.Chunk) (d : String)
        (e : VectorStore.VEntry),
      e ∈ VectorStore.docEntries
            (VectorStore.add_chunks chunks st).2.document_chunks d →
      e ∈ VectorStore.docEntries st.document_chunks d ∨
        ∃ c ∈ chunks, c.embedding.isSome ∧ c.document_id = d ∧
          e.content_preview = VectorStore.content_preview c.content) ∧
    (∀ content : List Char, content.length ≤ 200 →
      VectorStore.content_preview content = content) ∧
    (∀ content : List Char, 200 < content.length →
      VectorStore.content_preview content = content.take 200 ++ ("...".data) ∧
      (VectorStore.content_preview content).length = 203 ∧
      (VectorStore.content_preview content).take 200 = content.take 200) := by
  refine ⟨?_, ?_, ?_⟩
  · intro st chunks d e he
    by_cases hemb : chunks.filter (fun c => c.embedding.isSome) = []
    · simp only [VectorStore.add_chunks, hemb, if_pos rfl] at he
      exact Or.inl he
    · simp only [VectorStore.add_chunks, if_neg hemb] at he
      rw [VectorStore.docEntries_addEntries, List.mem_append] at he
      rcases he with he | he
      · exact Or.inl he
      · obtain ⟨c, hc, hd, i, rfl⟩ := VectorStore.mem_entriesFor _ _ _ _ he
        right
        refine ⟨c, List.mem_of_mem_filter hc, ?_, hd, rfl⟩
        have := List.of_mem_filter hc
        simpa using this
  · intro content h
    rw [VectorStore.content_preview, if_neg (by omega)]
  · intro content h
    rw [VectorStore.content_preview, if_pos h]
    refine ⟨rfl, ?_, ?_⟩
    · simp
      omega
    · rw [List.take_append_of_le_length]
      · rw [List.take_take]
        simp
      · simp
        omega

/-- Witness for `c4_content_preview_amended` at concrete inputs: a fresh
store, the batch `[c4wchunk]` and the entry it creates, plus the two
preview shapes at concrete contents. -/
theorem c4_content_preview_amended_witness :
    (VectorStore.mkEntry 0 c4wchunk).content_preview =
        VectorStore.content_preview c4wchunk.content ∧
      VectorStore.content_preview (List.replicate 5 'a') = List.replicate 5 'a' ∧
      (VectorStore.content_preview (List.replicate 201 'a')).length = 203 := by
  refine ⟨?_, ?_, ?_⟩
  · rcases c4_content_preview_amended.1 VectorStore.create_new_index [c4wchunk] ("d1")
      (VectorStore.mkEntry 0 c4wchunk) (by decide) with h | h
    · exact absurd h (by decide)
    · obtain ⟨c, hc, _, _, hp⟩ := h
      rw [List.mem_singleton] at hc
      subst hc
      exact hp
  · exact c4_content_preview_amended.2.1 (List.replicate 5 'a') (by decide)
  · exact (c4_content_preview_amended.2.2 (List.replicate 201 'a') (by simp)).2.1

namespace ContextRetriever

/-- The descending rerank comparison is transitive. -/
theorem rerankLE_trans : ∀ a b c : EChunk,
    (fun a b : EChunk => decide (b.rerank_score ≤ a.rerank_score)) a b →
    (fun a b : EChunk => decide (b.rerank_score ≤ a.rerank_score)) b c →
    (fun a b : EChunk => decide (b.rerank_score ≤ a.rerank_score)) a c := by
  intro a b c hab hbc
  simp only [decide_eq_true_eq] at hab hbc ⊢
  exact le_trans hbc hab

/-- The descending rerank comparison is total. -/
theorem rerankLE_total : ∀ a b : EChunk,
    ((fun a b : EChunk => decide (b.rerank_score ≤ a.rerank_score)) a b ||
     (fun a b : EChunk => decide (b.rerank_score ≤ a.rerank_score)) b a) := by
  intro a b
  simp only [Bool.or_eq_true, decide_eq_true_eq]
  exact (le_total b.rerank_score a.rerank_score)

end ContextRetriever

/-- C9: `_rerank_chunks` returns a permutation of the score-assigned chunks
in which every chunk's `rerank_score` is
`0.7 * similarity_score + 0.3 * (|query words ∩ content words| / max(|query words|, 1))`,
the list is totally ordered by `rerank_score` descending, and for every
score value the chunks carrying it appear in their original insertion
order (stability of the sort). -/
theorem c9_rerank_chunks (query : List Char) (chunks : List ContextRetriever.EChunk) :
    (ContextRetriever.rerank_chunks query chunks).Perm
        (chunks.map (ContextRetriever.assignScore query)) ∧
    (∀ c ∈ ContextRetriever.rerank_chunks query chunks,
      c.rerank_score = c.similarity_score * (7/10) +
        (((ContextRetriever.wordSet query ∩ ContextRetriever.wordSet c.content).card : ℚ) /
          (max (ContextRetriever.wordSet query).card 1 : ℚ)) * (3/10)) ∧
    (ContextRetriever.rerank_chunks query chunks).Pairwise
      (fun a b => b.rerank_score ≤ a.rerank_score) ∧
    (∀ s : ℚ,
      (ContextRetriever.rerank_chunks query chunks).filter (fun c => c.rerank_score = s) =
        (chunks.map (ContextRetriever.assignScore query)).filter
          (fun c => c.rerank_score = s)) := by
  set le : ContextRetriever.EChunk → ContextRetriever.EChunk → Bool :=
    fun a b => decide (b.rerank_score ≤ a.rerank_score) with hle
  set scored := chunks.map (ContextRetriever.assignScore query) with hscored
  have hperm : (ContextRetriever.rerank_chunks query chunks).Perm scored :=
    List.mergeSort_perm scored le
  refine ⟨hperm, ?_, ?_, ?_⟩
  · intro c hc
    have hc' : c ∈ scored := hperm.mem_iff.mp hc
    rw [hscored, List.mem_map] at hc'
    obtain ⟨c₀, _, rfl⟩ := hc'
    rfl
  · have hsorted : (scored.mergeSort le).Pairwise (fun a b => le a b = true) :=
      List.sorted_mergeSort
        ContextRetriever.rerankLE_trans ContextRetriever.rerankLE_total scored
    exact hsorted.imp (fun h => by rw [hle] at h; exact of_decide_eq_true h)
  · intro s
    set p : ContextRetriever.EChunk → Bool := fun c => decide (c.rerank_score = s) with hp
    have hpw : (scored.filter p).Pairwise (fun a b => le a b = true) := by
      apply List.pairwise_of_forall_mem_list
      intro a ha b hb
      have ha' := List.of_mem_filter ha
      have hb' := List.of_mem_filter hb
      rw [hp] at ha' hb'
      simp only [decide_eq_true_eq] at ha' hb'
      rw [hle]
      simp [ha', hb']
    have hsub : List.Sublist (scored.filter p) (scored.mergeSort le) := by
      have h0 : List.Sublist (scored.filter p) scored := List.filter_sublist scored
      exact List.sublist_mergeSort
        ContextRetriever.rerankLE_trans ContextRetriever.rerankLE_total hpw h0
    have hfp : (scored.filter p).filter p = scored.filter p := by
      rw [List.filter_eq_self]
      intro a ha
      exact List.of_mem_filter ha
    have hsub2 : List.Sublist (scored.filter p) ((scored.mergeSort le).filter p) := by
      have := hsub.filter p
      rwa [hfp] at this
    have hlen : ((scored.mergeSort le).filter p).length = (scored.filter p).length :=
      ((List.mergeSort_perm scored le).filter p).length_eq
    have := hsub2.eq_of_length hlen.symm
    exact this.symm

/-- Witness for `c9_rerank_chunks`: its score-formula conjunct applied to the
single chunk of a one-element rerank. -/
theorem c9_rerank_chunks_witness :
    (ContextRetriever.assignScore [] c9wchunk).rerank_score =
      (ContextRetriever.assignScore [] c9wchunk).similarity_score * (7/10) +
        (((ContextRetriever.wordSet [] ∩
            ContextRetriever.wordSet
              (ContextRetriever.assignScore [] c9wchunk).content).card : ℚ) /
          (max (ContextRetriever.wordSet []).card 1 : ℚ)) * (3/10) :=
  (c9_rerank_chunks [] [c9wchunk]).2.1 (ContextRetriever.assignScore [] c9wchunk)
    (by simp [ContextRetriever.rerank_chunks])

namespace ContextRetriever

/-- Each formatted part is at least as long as the content it embeds. -/
theorem length_le_mkPart (cfg : RetrievalConfig) (i : Nat) (c : EChunk)
    (content : List Char) : content.length ≤ (mkPart cfg i c content).length := by
  unfold mkPart
  split
  · dsimp only
    simp [List.length_append]
    omega
  · simp

/-- The content budget of the `_format_context` loop: the lengths of the
(possibly truncated) contents placed into the parts sum to at most the
remaining budget `max_context_length - current_length`. -/
theorem formatLoop_budget (cfg : RetrievalConfig) :
    ∀ (chunks : List EChunk) (i cur : Nat),
      (((formatLoop cfg i cur chunks).map (fun pr => pr.2.length)).sum ≤
        cfg.max_context_length - cur)
  | [], i, cur => by simp [formatLoop]
  | c :: rest, i, cur => by
    rw [formatLoop]
    by_cases h1 : cur + c.content.length > cfg.max_context_length
    · rw [if_pos h1]
      by_cases h2 : cfg.max_context_length - cur > 100
      · rw [if_pos h2]
        generalize hdots : ("...".data : List Char) = dots
        simp only [List.map_cons, List.sum_cons]
        have hd : dots.length = 3 := by rw [← hdots]; decide
        have hlen2 :
            (c.content.take (cfg.max_context_length - cur - 3) ++ dots).length =
              cfg.max_context_length - cur := by
          rw [List.length_append, List.length_take, hd]
          omega
        have hpart := length_le_mkPart cfg i c
          (c.content.take (cfg.max_context_length - cur - 3) ++ dots)
        rw [hlen2] at hpart ⊢
        have htail := formatLoop_budget cfg rest (i + 1)
          (cur + (mkPart cfg i c
            (c.content.take (cfg.max_context_length - cur - 3) ++ dots)).length)
        omega
      · rw [if_neg h2]
        simp
    · rw [if_neg h1]
      simp only [List.map_cons, List.sum_cons]
      have hpart := length_le_mkPart cfg i c c.content
      have htail := formatLoop_budget cfg rest (i + 1)
        (cur + (mkPart cfg i c c.content).length)
      omega

end ContextRetriever

/-- C1, claim as stated (instantiated): with `max_context_length = 10` and a
single chunk of exactly 10 characters, the content check passes
(`0 + 10 > 10` is false) but the emitted string `"[Source 1]\n0123456789"`
has 21 characters — the source header and separators are not counted
against the budget, so the context exceeds the configured maximum. -/
theorem c1_counterexample :
    ¬ ((ContextRetriever.format_context c1cfg [c1chunk]).length ≤
        c1cfg.max_context_length) := by
  decide

/-- C1, amended: the budget governs the raw chunk contents, not the final
string — the summed lengths of the (possibly truncated) contents that
`_format_context` accumulates never exceed `max_context_length`, while the
returned string additionally carries per-chunk source headers and separator
newlines and can therefore be longer than the budget. -/
theorem c1_content_budget (cfg : ContextRetriever.RetrievalConfig)
    (chunks : List ContextRetriever.EChunk) :
    (((ContextRetriever.formatLoop cfg 0 0 chunks).map (fun pr => pr.2.length)).sum ≤
      cfg.max_context_length) := by
  have := ContextRetriever.formatLoop_budget cfg chunks 0 0
  omega

/-- C6, claim as stated (instantiated), refuted on both counts: with two
candidates found and a document-id filter keeping one, the reported
`total_chunks_found` is the post-filter count 1, not the pre-filter count 2;
and the degraded empty-context fallback reports `query = ""`, not the
original query. -/
theorem c6_counterexample :
    ((ContextRetriever.retrieve_context c6env1 c6cfg ('q' :: []) (some ["d1"])
        ).metadata.total_chunks_found ≠ c6env1.search_results.length) ∧
    ((ContextRetriever.retrieve_context c6env2 c6cfg ('q' :: []) none
        ).metadata.query ≠ ('q' :: [])) := by
  decide

/-- C6, amended: on the non-degraded path (query embedding produced, index
initialized, nonempty search results) the response metadata reports the
original query and the number of candidates remaining after the document-id
filter; on any degraded path the canonical empty response is returned, whose
metadata reports the empty query and zero counts. -/
theorem c6_metadata_amended :
    (∀ (env : ContextRetriever.Env) (cfg : ContextRetriever.RetrievalConfig)
        (query : List Char) (dids : Option (List String)),
      env.query_embedding ≠ none → env.init_ok = true → env.search_results ≠ [] →
      (ContextRetriever.retrieve_context env cfg query dids).metadata.query = query ∧
      (ContextRetriever.retrieve_context env cfg query dids).metadata.total_chunks_found =
        (match dids with
         | some (d :: ds) =>
            env.search_results.filter
              (fun r : ContextRetriever.SearchRes => (d :: ds).contains r.document_id)
         | _ => env.search_results).length) ∧
    (∀ (env : ContextRetriever.Env) (cfg : ContextRetriever.RetrievalConfig)
        (query : List Char) (dids : Option (List String)),
      (env.query_embedding = none ∨ env.init_ok = false ∨ env.search_results = []) →
      ContextRetriever.retrieve_context env cfg query dids =
        ContextRetriever.empty_context_response) := by
  constructor
  · intro env cfg query dids h1 h2 h3
    cases hqe : env.query_embedding with
    | none => exact absurd hqe h1
    | some e =>
      simp only [ContextRetriever.retrieve_context, hqe, h2, Bool.not_true,
        Bool.false_eq_true, if_false, if_neg h3]
      exact ⟨trivial, trivial⟩
  · intro env cfg query dids h
    rcases h with h | h | h
    · simp [ContextRetriever.retrieve_context, h]
    · cases hqe : env.query_embedding with
      | none => simp [ContextRetriever.retrieve_context, hqe]
      | some e => simp [ContextRetriever.retrieve_context, hqe, h]
    · cases hqe : env.query_embedding with
      | none => simp [ContextRetriever.retrieve_context, hqe]
      | some e =>
        cases hio : env.init_ok with
        | false => simp [ContextRetriever.retrieve_context, hqe, hio]
        | true => simp [ContextRetriever.retrieve_context, hqe, hio, h]

/-- Witness for `c6_metadata_amended` at concrete inputs: the two-result
environment with a filter on the success path, and the missing-embedding
environment on the degraded path. -/
theorem c6_metadata_amended_witness :
    ((ContextRetriever.retrieve_context c6env1 c6cfg ('q' :: []) (some ["d1"])
        ).metadata.query = ('q' :: []) ∧
      (ContextRetriever.retrieve_context c6env1 c6cfg ('q' :: []) (some ["d1"])
        ).metadata.total_chunks_found =
        (c6env1.search_results.filter
          (fun r : ContextRetriever.SearchRes =>
            (("d1" : String) :: []).contains r.document_id)).length) ∧
    (ContextRetriever.retrieve_context c6env2 c6cfg ('q' :: []) none =
      ContextRetriever.empty_context_response) :=
  ⟨c6_metadata_amended.1 c6env1 c6cfg ('q' :: []) (some ["d1"])
      (by decide) rfl (by decide),
    c6_metadata_amended.2 c6env2 c6cfg ('q' :: []) none (Or.inl rfl)⟩

namespace Chunker

/-- Every chunk emitted by the loop has stripped content at least
`min_chunk_size` characters long, id `"{docId}_chunk_{chunk_index}"`, and a
`chunk_index` no smaller than the running index. -/
theorem chunkLoop_emitted (P : ChunkParams) :
    ∀ (ts : List (List Char)) (i : Nat) (cur : Int) (c : RChunk),
      c ∈ chunkLoop P i cur ts →
      (P.cfg.min_chunk_size ≤ c.content.length ∧
        c.id = P.docId ++ ("_chunk_".data) ++ Nat.toDigits 10 c.metadata.chunk_index ∧
        i ≤ c.metadata.chunk_index) := by
  intro ts
  induction ts with
  | nil =>
    intro i cur c hc
    simp [chunkLoop] at hc
  | cons t ts ih =>
    intro i cur c hc
    rw [chunkLoop] at hc
    split at hc
    · obtain ⟨h1, h2, h3⟩ := ih _ _ _ hc
      exact ⟨h1, h2, by omega⟩
    · rcases List.mem_cons.mp hc with rfl | hc'
      · refine ⟨?_, rfl, ?_⟩
        · dsimp only
          omega
        · dsimp only
          omega
      · obtain ⟨h1, h2, h3⟩ := ih _ _ _ hc'
        exact ⟨h1, h2, by omega⟩

/-- The chunk indices emitted by the loop are strictly increasing. -/
theorem chunkLoop_indices (P : ChunkParams) :
    ∀ (ts : List (List Char)) (i : Nat) (cur : Int),
      ((chunkLoop P i cur ts).map (fun c => c.metadata.chunk_index)).Pairwise (· < ·) := by
  intro ts
  induction ts with
  | nil =>
    intro i cur
    simp [chunkLoop]
  | cons t ts ih =>
    intro i cur
    rw [chunkLoop]
    split
    · exact ih _ _
    · rw [List.map_cons]
      refine List.Pairwise.cons ?_ (ih _ _)
      intro b hb
      rw [List.mem_map] at hb
      obtain ⟨c, hc, rfl⟩ := hb
      have := (chunkLoop_emitted P ts (i + 1) _ c hc).2.2
      dsimp only
      omega

end Chunker

/-- C7, claim as stated (instantiated): the minimum-size filter measures
characters, not tokens — a 4-character chunk passes the `min_chunk_size = 3`
filter and is emitted although its `token_count` is 1 `<` 3. -/
theorem c7_counterexample :
    ¬ (∀ c ∈ Chunker.chunk_text c7params,
        c7params.cfg.min_chunk_size ≤ c.metadata.token_count) := by
  decide

/-- C7, amended: the discard filter of `chunk_text` is measured in
characters of the stripped chunk text — every emitted chunk's content has
at least `min_chunk_size` characters (its token count may be smaller than
`min_chunk_size`). -/
theorem c7_min_size_amended (P : Chunker.ChunkParams) :
    ∀ c ∈ Chunker.chunk_text P, P.cfg.min_chunk_size ≤ c.content.length := by
  intro c hc
  rw [Chunker.chunk_text] at hc
  split at hc
  · exact absurd hc (List.not_mem_nil c)
  · exact (Chunker.chunkLoop_emitted P P.splitOutput 0 0 c hc).1

/-- Witness for `c7_min_size_amended` at the concrete parameters
`c7params` and their emitted chunk. -/
theorem c7_min_size_amended_witness :
    c7params.cfg.min_chunk_size ≤ c7wchunk.content.length :=
  c7_min_size_amended c7params c7wchunk (by decide)

/-- C8, claim as stated (instantiated): when the middle splitter chunk is
discarded the emitted sequence indices are `[0, 2]` — not the consecutive
`[0, 1]` the claim requires (`List.range` of the output length). -/
theorem c8_counterexample :
    ((Chunker.chunk_text c8params).map (fun c => c.metadata.chunk_index)) = [0, 2] ∧
    ¬ (((Chunker.chunk_text c8params).map (fun c => c.metadata.chunk_index)) =
        List.range (Chunker.chunk_text c8params).length) := by
  decide

/-- C8, amended: every emitted chunk has id
`"{document_id}_chunk_{k}"` with `k` its recorded `chunk_index` (its
position in the splitter output), and the emitted indices are strictly
increasing — but they may skip values where undersized chunks were
discarded, so they need not be consecutive. -/
theorem c8_ids_amended (P : Chunker.ChunkParams) :
    (∀ c ∈ Chunker.chunk_text P,
      c.id = P.docId ++ ("_chunk_".data) ++ Nat.toDigits 10 c.metadata.chunk_index) ∧
    ((Chunker.chunk_text P).map (fun c => c.metadata.chunk_index)).Pairwise (· < ·) := by
  constructor
  · intro c hc
    rw [Chunker.chunk_text] at hc
    split at hc
    · exact absurd hc (List.not_mem_nil c)
    · exact (Chunker.chunkLoop_emitted P P.splitOutput 0 0 c hc).2.1
  · rw [Chunker.chunk_text]
    split
    · simp
    · exact Chunker.chunkLoop_indices P P.splitOutput 0 0

/-- Witness for `c8_ids_amended` at the concrete parameters `c8params` and
their first emitted chunk. -/
theorem c8_ids_amended_witness :
    c8wchunk.id =
      c8params.docId ++ ("_chunk_".data) ++ Nat.toDigits 10 c8wchunk.metadata.chunk_index :=
  (c8_ids_amended c8params).1 c8wchunk (by decide)

namespace EmbeddingGenerator

/-- Batch processing preserves the number of chunks. -/
theorem length_process_batch (model : String) (r : Option (List (List ℚ)))
    (batch : List EChunk) : (process_batch model r batch).length = batch.length := by
  cases r with
  | none => simp [process_batch]
  | some embs =>
    simp [process_batch, List.length_zipWith]
    omega

/-- The per-position effect of one batch. -/
theorem getElem?_process_batch (model : String) (r : Option (List (List ℚ)))
    (batch : List EChunk) (j : Nat) :
    (process_batch model r batch)[j]? = (batch[j]?).map (transform model r j) := by
  cases r with
  | none =>
    simp only [process_batch, List.getElem?_map]
    cases batch[j]? <;> simp [transform]
  | some embs =>
    by_cases hj : j < (List.zipWith (setEmbedding model) batch embs).length
    · rw [process_batch, List.getElem?_append, if_pos hj]
      rw [List.length_zipWith] at hj
      have hb : j < batch.length := by omega
      have he : j < embs.length := by omega
      rw [List.getElem?_zipWith, List.getElem?_eq_getElem hb, List.getElem?_eq_getElem he]
      simp [transform, List.getElem?_eq_getElem he]
    · rw [process_batch, List.getElem?_append_right (Nat.le_of_not_lt hj)]
      rw [List.length_zipWith] at hj ⊢
      rcases le_or_lt embs.length batch.length with hle | hlt
      · have hz : min batch.length embs.length = embs.length := by omega
        rw [hz, List.getElem?_drop]
        have hje : embs.length ≤ j := by omega
        rw [show embs.length + (j - embs.length) = j by omega]
        cases hbj : batch[j]? with
        | none => rfl
        | some c =>
          simp [transform, List.getElem?_eq_none hje]
      · have hz : min batch.length embs.length = batch.length := by omega
        have hjb : batch.length ≤ j := by omega
        rw [hz, List.getElem?_drop]
        rw [List.getElem?_eq_none (l := batch) (by omega),
          List.getElem?_eq_none (l := batch) hjb]
        simp

/-- The whole batching loop preserves the number of chunks. -/
theorem length_process_batches (model : String)
    (provider : Nat → Option (List (List ℚ))) (bs : Nat) :
    ∀ (b : Nat) (l : List EChunk),
      (process_batches model provider bs b l).length = l.length
  | _, [] => by simp [process_batches]
  | b, c :: cs => by
    rw [process_batches, List.length_append, length_process_batch,
      length_process_batches model provider bs (b + 1) (cs.drop (bs - 1))]
    simp [List.length_take, List.length_drop]
    omega
termination_by _ l => l.length
decreasing_by
  have := (List.drop_sublist (bs - 1) cs).length_le
  simp
  omega

/-- The per-position effect of the whole batching loop: position `j` is
handled by batch `b + j / bs` at batch offset `j % bs`. -/
theorem getElem?_process_batches (model : String)
    (provider : Nat → Option (List (List ℚ))) (bs : Nat) (hbs : 0 < bs) :
    ∀ (b j : Nat) (l : List EChunk),
      (process_batches model provider bs b l)[j]? =
        (l[j]?).map (transform model (provider (b + j / bs)) (j % bs))
  | b, j, [] => by simp [process_batches]
  | b, j, c :: cs => by
    rw [process_batches]
    have hbatch : (c :: cs.take (bs - 1)) = (c :: cs).take bs := by
      obtain ⟨m, rfl⟩ : ∃ m, bs = m + 1 := ⟨bs - 1, by omega⟩
      simp
    have hlen1 : (c :: cs.take (bs - 1)).length = min bs (c :: cs).length := by
      simp [List.length_take]
      omega
    by_cases hj : j < (c :: cs.take (bs - 1)).length
    · have hjlen : j < (process_batch model (provider b) (c :: cs.take (bs - 1))).length := by
        rw [length_process_batch]
        exact hj
      rw [List.getElem?_append, if_pos hjlen, getElem?_process_batch]
      have hjbs : j < bs := by rw [hlen1] at hj; omega
      rw [Nat.div_eq_of_lt hjbs, Nat.mod_eq_of_lt hjbs, Nat.add_zero]
      rw [hbatch, List.getElem?_take_of_lt hjbs]
    · push_neg at hj
      rw [List.getElem?_append_right (by rw [length_process_batch]; omega)]
      rw [length_process_batch]
      rcases Nat.lt_or_ge j (c :: cs).length with hjl | hjl
      · have hj' := hj
        rw [hlen1] at hj'
        have hbsl : (c :: cs.take (bs - 1)).length = bs := by
          rw [hlen1]
          omega
        have hjbs : bs ≤ j := by rw [hbsl] at hj; exact hj
        rw [hbsl,
          getElem?_process_batches model provider bs hbs (b + 1) (j - bs) (cs.drop (bs - 1))]
        have hdrop : (cs.drop (bs - 1))[j - bs]? = (c :: cs)[j]? := by
          rw [List.getElem?_drop]
          obtain ⟨j', rfl⟩ : ∃ j', j = j' + 1 := ⟨j - 1, by omega⟩
          rw [show bs - 1 + (j' + 1 - bs) = j' by omega, List.getElem?_cons_succ]
        have harg : b + 1 + (j - bs) / bs = b + j / bs := by
          rw [Nat.div_eq_sub_div hbs hjbs]
          omega
        have hmod : (j - bs) % bs = j % bs := (Nat.mod_eq_sub_mod hjbs).symm
        rw [hdrop, harg, hmod]
      · have h1 : (cs.drop (bs - 1))[j - (c :: cs.take (bs - 1)).length]? = none := by
          apply List.getElem?_eq_none
          rw [List.length_drop, hlen1]
          simp at hjl
          omega
        rw [getElem?_process_batches model provider bs hbs (b + 1)
          (j - (c :: cs.take (bs - 1)).length) (cs.drop (bs - 1)), h1,
          List.getElem?_eq_none (by simpa using hjl)]
        simp
termination_by _ _ l => l.length
decreasing_by
  all_goals
    simp only [List.length_drop, List.length_cons]
    omega

/-- Validation is the identity on batches of non-blank, within-limit chunks. -/
theorem validate_chunks_eq_self (enc : List Char → List Nat)
    (dec : List Nat → List Char) (maxTokens : Nat) (chunks : List EChunk)
    (h : ∀ c ∈ chunks,
      stripChars c.content ≠ [] ∧ (enc (stripChars c.content)).length ≤ maxTokens) :
    validate_chunks enc dec maxTokens chunks = chunks := by
  induction chunks with
  | nil => rfl
  | cons c cs ih =>
    have hc := h c (List.mem_cons_self _ _)
    rw [validate_chunks]
    rw [if_neg (fun h' => hc.1 (by rw [h']; rfl))]
    rw [if_neg hc.1]
    rw [if_neg (by omega)]
    rw [ih (fun c' hc' => h c' (List.mem_cons_of_mem _ hc'))]

end EmbeddingGenerator

/-- C2, amended: for a batch of N chunks with non-blank content within the
token limit and a positive batch size, `generate_embeddings` returns exactly
N items in the input order, where position `j` is transformed exactly by the
outcome of its batch `j / batch_size` (see `transform`): if that batch's
retry result is a failure, the chunk — along with every other chunk of the
same batch — is marked embedding-absent with an error annotation; if the
batch succeeds, the chunk receives its embedding; no failure aborts the
call. -/
theorem c2_order_and_marking (model : String)
    (provider : Nat → Option (List (List ℚ))) (enc : List Char → List Nat)
    (dec : List Nat → List Char) (maxTokens bs : Nat)
    (chunks : List EmbeddingGenerator.EChunk) (hbs : 0 < bs)
    (hvalid : ∀ c ∈ chunks, stripChars c.content ≠ [] ∧
      (enc (stripChars c.content)).length ≤ maxTokens) :
    (EmbeddingGenerator.generate_embeddings model provider enc dec maxTokens bs
        chunks).length = chunks.length ∧
    (∀ j : Nat,
      (EmbeddingGenerator.generate_embeddings model provider enc dec maxTokens bs
          chunks)[j]? =
        (chunks[j]?).map
          (EmbeddingGenerator.transform model (provider (j / bs)) (j % bs))) := by
  by_cases hnil : chunks = []
  · subst hnil
    refine ⟨rfl, ?_⟩
    intro j
    simp [EmbeddingGenerator.generate_embeddings]
  · have hv := EmbeddingGenerator.validate_chunks_eq_self enc dec maxTokens chunks hvalid
    rw [EmbeddingGenerator.generate_embeddings, if_neg hnil, hv, if_neg hnil]
    constructor
    · exact EmbeddingGenerator.length_process_batches model provider bs 0 chunks
    · intro j
      have := EmbeddingGenerator.getElem?_process_batches model provider bs hbs 0 j chunks
      simpa using this

/-- C2, claim as stated (instantiated), refuted on two counts: a batch of 2
chunks with non-empty content returns only 1 item when the second content is
whitespace-only (validation drops it); and when the single 2-chunk batch
fails, item 1 is marked embedding-absent as well — failure marks the whole
batch, not only the failing item `i = 0`, so "all other items unaffected"
does not hold. -/
theorem c2_counterexample :
    ((EmbeddingGenerator.generate_embeddings "text-embedding-3-small"
        (fun _ => some [[1]]) (fun _ => [0]) (fun _ => []) 8191 100
        [c2chunkA, c2chunkWS]).length ≠ 2) ∧
    ((EmbeddingGenerator.generate_embeddings "text-embedding-3-small"
        (fun _ => none) (fun _ => [0]) (fun _ => []) 8191 100
        [c2chunkA, c2chunkB])[1]? =
      some (EmbeddingGenerator.markNoEmbedding c2chunkB)) := by
  have h1 : EmbeddingGenerator.validate_chunks (fun _ => [0]) (fun _ => [])
      8191 [c2chunkA, c2chunkWS] = [c2chunkA] := by
    decide
  have h2 : EmbeddingGenerator.process_batches "text-embedding-3-small"
      (fun _ => some [[1]]) 100 0 [c2chunkA] =
      [EmbeddingGenerator.setEmbedding "text-embedding-3-small" c2chunkA [1]] := by
    rw [EmbeddingGenerator.process_batches]
    simp [EmbeddingGenerator.process_batches, EmbeddingGenerator.process_batch]
  have h3 : EmbeddingGenerator.validate_chunks (fun _ => [0]) (fun _ => [])
      8191 [c2chunkA, c2chunkB] = [c2chunkA, c2chunkB] := by
    decide
  have h4 : EmbeddingGenerator.process_batches "text-embedding-3-small"
      (fun _ => none) 100 0 [c2chunkA, c2chunkB] =
      [EmbeddingGenerator.markNoEmbedding c2chunkA,
        EmbeddingGenerator.markNoEmbedding c2chunkB] := by
    rw [EmbeddingGenerator.process_batches]
    simp [EmbeddingGenerator.process_batches, EmbeddingGenerator.process_batch]
  constructor
  · rw [EmbeddingGenerator.generate_embeddings, if_neg (by decide), h1,
      if_neg (by decide), h2]
    decide
  · rw [EmbeddingGenerator.generate_embeddings, if_neg (by decide), h3,
      if_neg (by decide), h4]
    rfl

/-- Witness for `c2_order_and_marking` at a concrete input: one valid chunk,
batch size 100, a failing provider. -/
theorem c2_order_and_marking_witness :
    (EmbeddingGenerator.generate_embeddings "text-embedding-3-small"
        (fun _ => none) (fun _ => [0]) (fun _ => []) 8191 100
        [c2chunkA]).length = ([c2chunkA] : List EmbeddingGenerator.EChunk).length :=
  (c2_order_and_marking "text-embedding-3-small" (fun _ => none) (fun _ => [0])
    (fun _ => []) 8191 100 [c2chunkA] (by omega) (by decide)).1

/-- Witness for `c5_insertion_and_invariant`: its insertion-order conjunct
applied to a fresh store and a one-chunk batch. -/
theorem c5_insertion_and_invariant_witness :
    VectorStore.docEntries
        (VectorStore.add_chunks [c5wchunk] VectorStore.create_new_index).2.document_chunks
        ("d5") =
      VectorStore.docEntries VectorStore.create_new_index.document_chunks ("d5") ++
        VectorStore.entriesFor VectorStore.create_new_index.ntotal
          ([c5wchunk].filter (fun c => c.embedding.isSome)) ("d5") :=
  c5_insertion_and_invariant.2 VectorStore.create_new_index [c5wchunk] ("d5")

/-- Witness for `c10_remove_document_search`: after removing `"d1"`, the
concrete search hit resolving to `"d2"` is indeed not from the removed
document. -/
theorem c10_remove_document_search_witness :
    (⟨"c2", "d2", [], [], 1, 1⟩ : VectorStore.SearchResult).document_id ≠ "d1" :=
  (c10_remove_document_search c10st "d1").2.1 [(1, (1 : Int))] 0
    ⟨"c2", "d2", [], [], 1, 1⟩ (by decide)
